import Mathlib

/-!
# rss-to-notion: a shallow embedding of `main.go`

Go strings are immutable byte sequences: `len` counts bytes and `s[i:j]` slices
bytes, so a Go string is modelled as a list of bytes. Go `error` values are
modelled by the inductive type `Error`, with `nil` as `none`.

The collaborators of the program (feed parser, rate limiter, Notion client,
HTML-to-markdown converter) live outside the repository. They are taken as
parameters (`Collaborators`), each stateful one as a function on an abstract
world state, and every call to one of them is recorded as an `Event`.

The timing of the rate limiter configured by `runSync` is modelled apart, as a token
bucket on integer nanoseconds (`Limiter`).
-/

namespace RssToNotion

/-! ## Data model -/

abbrev Byte := Fin 256

abbrev GoString := List Byte

abbrev Time := Int

/-- Go `error` values: `errorf` is `fmt.Errorf` with a constant message, `wrapf` is
`fmt.Errorf("...: %v", err)`, `remote` is an error produced by a collaborator. -/
inductive Error where
  | errorf (msg : String)
  | wrapf (msg : String) (cause : Error)
  | remote (code : Nat)
  deriving DecidableEq, Repr

/-- Config holds the application configuration settings (`main.go`, lines 20-24). -/
structure Config where
  Feeds : List GoString
  NotionDBID : GoString
  NotionAPIKey : GoString
  deriving DecidableEq, Repr

/-- Validate checks that all required fields are populated (`main.go`, lines 28-42).
The result is the returned `error`, `none` standing for `nil`. -/
def Config.Validate (c : Config) : Option Error :=
  if c.Feeds.length = 0 then
    some (Error.errorf "no feeds specified")
  else if c.NotionDBID = [] then
    some (Error.errorf "notion_db_id is required")
  else if c.NotionAPIKey = [] then
    some (Error.errorf "notion_api_key is required")
  else
    none

/-- The fields of `gofeed.Item` that the program reads. -/
structure Item where
  Title : GoString
  Link : GoString
  Content : GoString
  PublishedParsed : Option Time
  deriving DecidableEq, Repr

/-- The property values written by `addToNotion`. -/
inductive Property where
  | TitleProperty (content : GoString)
  | URLProperty (url : GoString)
  | DateProperty (start : Time)
  deriving DecidableEq, Repr

/-- A `notionapi.Properties` map, as the list of its key/value pairs. -/
abbrev Properties := List (String × Property)

/-- A `notionapi.ParagraphBlock` holding one rich-text element with content `Content`. -/
structure ParagraphBlock where
  Object : String
  BlockType : String
  Content : GoString
  deriving DecidableEq, Repr

/-- The block appended by one iteration of the chunk loop (`main.go`, lines 278-288). -/
def paragraph (chunk : GoString) : ParagraphBlock :=
  { Object := "block", BlockType := "paragraph", Content := chunk }

/-- The chunk loop of `addToNotion` (`main.go`, lines 269-289), as a function of the
loop variables `content` and `children`; the result is `children` at loop exit. -/
def chunkLoop (content : GoString) (children : List ParagraphBlock) : List ParagraphBlock :=
  if 0 < content.length then
    if 2000 < content.length then
      chunkLoop (content.drop 2000) (children ++ [paragraph (content.take 2000)])
    else
      chunkLoop [] (children ++ [paragraph content])
  else
    children
termination_by content.length
decreasing_by
  all_goals simp_wf
  all_goals omega

/-- The request passed to `client.Page.Create` (`main.go`, lines 291-297). -/
structure PageCreateRequest where
  DatabaseID : GoString
  Properties : Properties
  Children : List ParagraphBlock
  deriving DecidableEq, Repr

/-! ## Collaborators and events -/

/-- The lines written with `log.Printf` by `processFeed`. -/
inductive LogLine where
  | Fetching (feedURL : GoString)
  | ErrorFetching (feedURL : GoString) (err : Error)
  | RateLimiterError (err : Error)
  | ErrorChecking (err : Error)
  | SkippingExisting (title : GoString)
  | ErrorAdding (err : Error)
  | Added (title : GoString)
  deriving DecidableEq, Repr

/-- The observable steps of a feed worker: calls to the collaborators with their
results, log lines, and the entry into `addToNotion`. -/
inductive Event where
  | Printf (line : LogLine)
  | ParseURLWithContext (url : GoString) (err : Option Error)
  | Wait (err : Option Error)
  | Query (dbID : GoString) (url : GoString) (err : Option Error)
  | EnterAddToNotion (item : Item)
  | Create (req : PageCreateRequest) (err : Option Error)
  deriving DecidableEq, Repr

/-- The external collaborators, over an abstract world state `σ`.
* `ParseURLWithContext` is `gofeed.Parser.ParseURLWithContext`, returning `feed.Items`;
* `Wait` is `rate.Limiter.Wait`;
* `Query` is `client.Database.Query`, returning `len(result.Results)`;
* `ConvertString` is `md.Converter.ConvertString`;
* `Create` is `client.Page.Create`. -/
structure Collaborators (σ : Type) where
  ParseURLWithContext : GoString → σ → Except Error (List Item) × σ
  Wait : σ → Option Error × σ
  Query : GoString → GoString → σ → Except Error Nat × σ
  ConvertString : GoString → Except Error GoString
  Create : PageCreateRequest → σ → Option Error × σ

/-! ## Operations -/

/-- Retrieves the items of a feed (`main.go`, lines 175-192): result, events, new world. -/
def fetchFeed {σ : Type} (env : Collaborators σ) (url : GoString) (w : σ) :
    Except Error (List Item) × List Event × σ :=
  match env.ParseURLWithContext url w with
  | (Except.error err, w1) => (Except.error err, [Event.ParseURLWithContext url (some err)], w1)
  | (Except.ok items, w1) => (Except.ok items, [Event.ParseURLWithContext url none], w1)

/-- Checks whether a URL already exists in the database (`main.go`, lines 203-222). -/
def checkIfExists {σ : Type} (env : Collaborators σ) (dbID : GoString) (url : GoString) (w : σ) :
    Except Error Bool × List Event × σ :=
  match env.Query dbID url w with
  | (Except.error err, w1) => (Except.error err, [Event.Query dbID url (some err)], w1)
  | (Except.ok n, w1) => (Except.ok (decide (n > 0)), [Event.Query dbID url none], w1)

/-- Converts HTML content to markdown (`main.go`, lines 231-238). -/
def convertToMarkdown {σ : Type} (env : Collaborators σ) (htmlContent : GoString) :
    Except Error GoString :=
  match env.ConvertString htmlContent with
  | Except.error err => Except.error (Error.wrapf "error converting HTML to markdown" err)
  | Except.ok markdown => Except.ok markdown

/-- The property map built by `addToNotion` (`main.go`, lines 241-259). -/
def buildProperties (item : Item) : Properties :=
  let properties : Properties :=
    [("Name", Property.TitleProperty item.Title), ("URL", Property.URLProperty item.Link)]
  match item.PublishedParsed with
  | some t => properties ++ [("Published", Property.DateProperty t)]
  | none => properties

/-- Writes one record (`main.go`, lines 240-300): returned error, events, new world. -/
def addToNotion {σ : Type} (env : Collaborators σ) (dbID : GoString) (item : Item) (w : σ) :
    Option Error × List Event × σ :=
  let properties := buildProperties item
  match convertToMarkdown env item.Content with
  | Except.error err => (some err, [Event.EnterAddToNotion item], w)
  | Except.ok markdown =>
    let children := chunkLoop markdown []
    let req : PageCreateRequest :=
      { DatabaseID := dbID, Properties := properties, Children := children }
    match env.Create req w with
    | (err, w1) => (err, [Event.EnterAddToNotion item, Event.Create req err], w1)

/-- One iteration of the item loop of `processFeed` (`main.go`, lines 124-143);
every `continue` ends the iteration. -/
def processItem {σ : Type} (env : Collaborators σ) (dbID : GoString) (item : Item) (w : σ) :
    List Event × σ :=
  match env.Wait w with
  | (some err, w1) =>
    ([Event.Wait (some err), Event.Printf (LogLine.RateLimiterError err)], w1)
  | (none, w1) =>
    match checkIfExists env dbID item.Link w1 with
    | (Except.error err, ev2, w2) =>
      (Event.Wait none :: ev2 ++ [Event.Printf (LogLine.ErrorChecking err)], w2)
    | (Except.ok true, ev2, w2) =>
      (Event.Wait none :: ev2 ++ [Event.Printf (LogLine.SkippingExisting item.Title)], w2)
    | (Except.ok false, ev2, w2) =>
      match addToNotion env dbID item w2 with
      | (some err, ev3, w3) =>
        (Event.Wait none :: ev2 ++ ev3 ++ [Event.Printf (LogLine.ErrorAdding err)], w3)
      | (none, ev3, w3) =>
        (Event.Wait none :: ev2 ++ ev3 ++ [Event.Printf (LogLine.Added item.Title)], w3)

/-- The item loop of `processFeed` (`main.go`, lines 123-144). -/
def processItems {σ : Type} (env : Collaborators σ) (dbID : GoString) :
    List Item → σ → List Event × σ
  | [], w => ([], w)
  | item :: rest, w =>
    match processItem env dbID item w with
    | (ev, w1) =>
      match processItems env dbID rest w1 with
      | (evs, w2) => (ev ++ evs, w2)

/-- A feed worker (`main.go`, lines 115-145): the events of the run and the final world. -/
def processFeed {σ : Type} (env : Collaborators σ) (feedURL : GoString) (dbID : GoString)
    (w : σ) : List Event × σ :=
  match fetchFeed env feedURL w with
  | (Except.error err, ev1, w1) =>
    (Event.Printf (LogLine.Fetching feedURL) :: ev1 ++
      [Event.Printf (LogLine.ErrorFetching feedURL err)], w1)
  | (Except.ok items, ev1, w1) =>
    match processItems env dbID items w1 with
    | (evs, w2) => (Event.Printf (LogLine.Fetching feedURL) :: ev1 ++ evs, w2)

/-! ## Observations on event lists -/

/-- Holds of rate-token acquisitions that succeeded. -/
def Event.isTokenAcquired : Event → Bool
  | Event.Wait none => true
  | _ => false

/-- Holds of every call to `limiter.Wait`. -/
def Event.isWait : Event → Bool
  | Event.Wait _ => true
  | _ => false

/-- Holds of the calls to the destination store: `Database.Query` and `Page.Create`. -/
def Event.isStoreCall : Event → Bool
  | Event.Query _ _ _ => true
  | Event.Create _ _ => true
  | _ => false

/-- The items for which `addToNotion` was entered, in order. -/
def addedItems (evs : List Event) : List Item :=
  evs.filterMap fun e =>
    match e with
    | Event.EnterAddToNotion item => some item
    | _ => none

/-! ## UTF-8 well-formedness -/

/-- One step of a UTF-8 decoder. A state `some (n, lo, hi)` expects `n` more bytes in the
current sequence, the next of them in the range `lo..hi`; `n = 0` is a character boundary
and `none` is the error state. The lead bytes and the ranges of the second byte are those
of the well-formed UTF-8 byte sequences (Unicode Standard, Table 3-7). -/
def utf8Step : Option (Nat × Nat × Nat) → Nat → Option (Nat × Nat × Nat)
  | none, _ => none
  | some (0, _, _), b =>
    if b < 0x80 then some (0, 0x80, 0xBF)
    else if 0xC2 ≤ b ∧ b ≤ 0xDF then some (1, 0x80, 0xBF)
    else if b = 0xE0 then some (2, 0xA0, 0xBF)
    else if b = 0xED then some (2, 0x80, 0x9F)
    else if 0xE1 ≤ b ∧ b ≤ 0xEF then some (2, 0x80, 0xBF)
    else if b = 0xF0 then some (3, 0x90, 0xBF)
    else if b = 0xF4 then some (3, 0x80, 0x8F)
    else if 0xF1 ≤ b ∧ b ≤ 0xF3 then some (3, 0x80, 0xBF)
    else none
  | some (n + 1, lo, hi), b =>
    if lo ≤ b ∧ b ≤ hi then some (n, 0x80, 0xBF) else none

/-- Runs the decoder over the bytes from state `st`; the bytes are accepted when the
decoder ends at a character boundary. -/
def validUTF8From (st : Option (Nat × Nat × Nat)) (bytes : List Nat) : Bool :=
  match bytes.foldl utf8Step st with
  | some (0, _, _) => true
  | _ => false

/-- Well-formed UTF-8, on byte values. -/
def validUTF8Nat (bytes : List Nat) : Bool := validUTF8From (some (0, 0x80, 0xBF)) bytes

/-- Whether a Go string is valid UTF-8, as `utf8.ValidString` decides it. -/
def validUTF8 (s : GoString) : Bool := validUTF8Nat (s.map Fin.val)

/-- The request sent by `addToNotion` for `item` once its content converted to `markdown`. -/
def createRequest (dbID : GoString) (item : Item) (markdown : GoString) : PageCreateRequest :=
  { DatabaseID := dbID, Properties := buildProperties item, Children := chunkLoop markdown [] }

/-- A text of 1999 letters `a` followed by the two bytes of `é` (U+00E9). -/
def straddlingText : GoString := List.replicate 1999 97 ++ [0xC3, 0xA9]

/-! ## A scripted environment -/

/-- Collaborators with fixed answers: the feed lists `items`, the store holds one record
for each link in `stored`, the limiter always grants a token, every create request
succeeds, and the converter is `convert`. The world state counts the calls made. -/
def scriptedEnv (items : List Item) (stored : List GoString)
    (convert : GoString → Except Error GoString) : Collaborators Nat where
  ParseURLWithContext := fun _ w => (Except.ok items, w + 1)
  Wait := fun w => (none, w + 1)
  Query := fun _ url w => (Except.ok (if url ∈ stored then 1 else 0), w + 1)
  ConvertString := convert
  Create := fun _ w => (none, w + 1)

/-- Collaborators whose feed parser fails, so that no item is ever fetched. -/
def unreachableFeedEnv : Collaborators Nat where
  ParseURLWithContext := fun _ w => (Except.error (Error.remote 2), w + 1)
  Wait := fun w => (none, w + 1)
  Query := fun _ _ w => (Except.ok 0, w + 1)
  ConvertString := Except.ok
  Create := fun _ w => (none, w + 1)

/-- An item whose link is already in the store of the examples. -/
def storedItem : Item :=
  { Title := [79], Link := [111], Content := [60, 98, 62], PublishedParsed := none }

/-- An item whose link is not in the store of the examples. -/
def freshItem : Item :=
  { Title := [78], Link := [110], Content := [104, 105], PublishedParsed := some 7 }

/-! ## The rate limiter -/

/-- A `time.Duration`: a number of nanoseconds. -/
abbrev Duration := Int

/-- The constant `time.Second`. -/
def Second : Duration := 1000000000

/-- Modelled from the spec: the `rate.Limiter` of `golang.org/x/time/rate`, which is not
part of the repository. It is a token bucket (spec 4.6 and 9) that holds at most `burst`
tokens, starts full, and is refilled at a steady rate of one token every `every`
nanoseconds. The fill of the bucket is counted in nanoseconds of refill: `credit` is the
fill at time `last`, one token is worth `every`, and a negative fill is the refill time
owed to the callers already admitted. Times are nanoseconds on the clock of the limiter. -/
structure Limiter where
  every : Duration
  burst : Int
  last : Int
  credit : Int
  deriving DecidableEq, Repr

/-- Modelled from the spec: `rate.NewLimiter(rate.Every(every), burst)` called at time
`now`; the bucket starts full. -/
def NewLimiter (every : Duration) (burst : Int) (now : Int) : Limiter :=
  { every := every, burst := burst, last := now, credit := burst * every }

/-- Modelled from the spec: `Limiter.Wait` called at time `now` (spec 4.6: block until a
token is available, then consume one token). The bucket is refilled for the time elapsed
since `last`, up to `burst` tokens, and one token is taken; when the fill becomes negative
the caller is held until the refill has paid for its token. The result is the time at
which the caller is let through, and the new state. -/
def Limiter.Wait (lim : Limiter) (now : Int) : Int × Limiter :=
  let filled := min (lim.burst * lim.every) (lim.credit + (now - lim.last))
  let credit := filled - lim.every
  (if credit < 0 then now - credit else now,
    { every := lim.every, burst := lim.burst, last := now, credit := credit })

/-- The limiter built by `runSync` (`main.go`, line 95), `rate.NewLimiter(rate.Every(
time.Second/3), 1)`, created at time `now`. Both operands of the division are positive, so
it is the truncating division of Go. -/
def runSyncLimiter (now : Int) : Limiter := NewLimiter (Second / 3) 1 now

/-- The times at which successive calls of `Wait`, made at the times `calls`, are let
through. -/
def grantTimes (lim : Limiter) : List Int → List Int
  | [] => []
  | now :: rest => (lim.Wait now).1 :: grantTimes (lim.Wait now).2 rest

/-- The number of grants in the window of duration `d` that starts at `t`. -/
def grantsIn (grants : List Int) (t : Int) (d : Duration) : Nat :=
  grants.countP fun g => decide (t ≤ g ∧ g < t + d)

/-! ## The chunk loop -/

theorem chunkLoop_nil (children : List ParagraphBlock) : chunkLoop [] children = children := by
  rw [chunkLoop]
  simp

theorem chunkLoop_short (content : GoString) (children : List ParagraphBlock)
    (hpos : 0 < content.length) (hle : content.length ≤ 2000) :
    chunkLoop content children = children ++ [paragraph content] := by
  rw [chunkLoop]
  have hnot : ¬ 2000 < content.length := by omega
  simp only [hpos, hnot, if_true, if_false]
  exact chunkLoop_nil _

theorem chunkLoop_long (content : GoString) (children : List ParagraphBlock)
    (hgt : 2000 < content.length) :
    chunkLoop content children =
      chunkLoop (content.drop 2000) (children ++ [paragraph (content.take 2000)]) := by
  rw [chunkLoop]
  have hpos : 0 < content.length := by omega
  simp only [hpos, hgt, if_true]

/-- The blocks already built are kept, and the new ones are appended after them. -/
theorem chunkLoop_children (content : GoString) (children : List ParagraphBlock) :
    chunkLoop content children = children ++ chunkLoop content [] := by
  generalize h : content.length = n
  induction n using Nat.strong_induction_on generalizing content children with
  | _ n ih =>
    by_cases hpos : 0 < content.length
    · by_cases hgt : 2000 < content.length
      · have hlen : (content.drop 2000).length < n := by
          rw [List.length_drop]; omega
        rw [chunkLoop_long content children hgt, chunkLoop_long content [] hgt,
          ih _ hlen _ _ rfl, ih _ hlen _ ([] ++ [paragraph (content.take 2000)]) rfl]
        simp
      · rw [chunkLoop_short content children hpos (by omega),
          chunkLoop_short content [] hpos (by omega)]
        simp
    · have hnil : content = [] := List.length_eq_zero.mp (by omega)
      subst hnil
      simp [chunkLoop_nil]

/-- One unfolding of the loop on a text longer than one block. -/
theorem chunkLoop_cons (content : GoString) (hgt : 2000 < content.length) :
    chunkLoop content [] = paragraph (content.take 2000) :: chunkLoop (content.drop 2000) [] := by
  rw [chunkLoop_long content [] hgt, chunkLoop_children]
  simp

/-- The contents of the blocks, concatenated in order, are the text that was chunked. -/
theorem chunkLoop_contents (content : GoString) :
    ((chunkLoop content []).map fun b => b.Content).flatten = content := by
  generalize h : content.length = n
  induction n using Nat.strong_induction_on generalizing content with
  | _ n ih =>
    by_cases hpos : 0 < content.length
    · by_cases hgt : 2000 < content.length
      · have hlen : (content.drop 2000).length < n := by
          rw [List.length_drop]; omega
        rw [chunkLoop_cons content hgt]
        simp only [List.map_cons, List.flatten_cons, ih _ hlen _ rfl]
        simp [paragraph]
      · rw [chunkLoop_short content [] hpos (by omega)]
        simp [paragraph]
    · have hnil : content = [] := List.length_eq_zero.mp (by omega)
      subst hnil
      simp [chunkLoop_nil]

/-- The number of blocks is the text length divided by 2000, rounded up. -/
theorem chunkLoop_length (content : GoString) :
    (chunkLoop content []).length = (content.length + 1999) / 2000 := by
  generalize h : content.length = n
  induction n using Nat.strong_induction_on generalizing content with
  | _ n ih =>
    by_cases hpos : 0 < content.length
    · by_cases hgt : 2000 < content.length
      · have hlen : (content.drop 2000).length < n := by
          rw [List.length_drop]; omega
        rw [chunkLoop_cons content hgt, List.length_cons, ih _ hlen _ rfl, List.length_drop]
        omega
      · rw [chunkLoop_short content [] hpos (by omega)]
        simp
        omega
    · have hnil : content = [] := List.length_eq_zero.mp (by omega)
      subst hnil
      simp at h
      subst h
      simp [chunkLoop_nil]

/-- Every block holds between 1 and 2000 bytes. -/
theorem chunkLoop_each (content : GoString) :
    ∀ b ∈ chunkLoop content [], 1 ≤ b.Content.length ∧ b.Content.length ≤ 2000 := by
  generalize h : content.length = n
  induction n using Nat.strong_induction_on generalizing content with
  | _ n ih =>
    by_cases hpos : 0 < content.length
    · by_cases hgt : 2000 < content.length
      · have hlen : (content.drop 2000).length < n := by
          rw [List.length_drop]; omega
        rw [chunkLoop_cons content hgt]
        intro b hb
        rcases List.mem_cons.mp hb with hb | hb
        · subst hb
          simp only [paragraph, List.length_take]
          omega
        · exact ih _ hlen _ rfl b hb
      · rw [chunkLoop_short content [] hpos (by omega)]
        intro b hb
        simp at hb
        subst hb
        simp only [paragraph]
        omega
    · have hnil : content = [] := List.length_eq_zero.mp (by omega)
      subst hnil
      simp [chunkLoop_nil]

/-- A text that is not empty yields at least one block. -/
theorem chunkLoop_ne_nil (content : GoString) (hpos : 0 < content.length) :
    chunkLoop content [] ≠ [] := by
  intro hnil
  have hlen := chunkLoop_length content
  rw [hnil] at hlen
  simp at hlen
  omega

/-- Every block before the last one holds exactly 2000 bytes. -/
theorem chunkLoop_dropLast (content : GoString) :
    ∀ b ∈ (chunkLoop content []).dropLast, b.Content.length = 2000 := by
  generalize h : content.length = n
  induction n using Nat.strong_induction_on generalizing content with
  | _ n ih =>
    by_cases hpos : 0 < content.length
    · by_cases hgt : 2000 < content.length
      · have hlen : (content.drop 2000).length < n := by
          rw [List.length_drop]; omega
        have hrest : chunkLoop (content.drop 2000) [] ≠ [] :=
          chunkLoop_ne_nil _ (by rw [List.length_drop]; omega)
        rw [chunkLoop_cons content hgt]
        obtain ⟨c, cs, hcs⟩ := List.exists_cons_of_ne_nil hrest
        intro b hb
        rw [hcs, List.dropLast_cons₂, List.mem_cons] at hb
        rcases hb with hb | hb
        · subst hb
          simp only [paragraph, List.length_take]
          omega
        · exact ih _ hlen _ rfl b (by rw [hcs]; exact hb)
      · rw [chunkLoop_short content [] hpos (by omega)]
        simp
    · have hnil : content = [] := List.length_eq_zero.mp (by omega)
      subst hnil
      simp [chunkLoop_nil]

/-! ## UTF-8: helper lemmas -/

theorem validUTF8Nat_ascii (n : Nat) (rest : List Nat) :
    validUTF8Nat (List.replicate n 97 ++ rest) = validUTF8Nat rest := by
  induction n with
  | zero => rfl
  | succ k ih =>
    rw [List.replicate_succ, List.cons_append]
    exact ih

/-! ## Configuration and the chunk loop: claims -/

/-- C1: `Validate` returns an error exactly when the feed list is empty, or the database
id is the empty string, or the API key is the empty string; it returns `nil` exactly when
all three are populated. -/
theorem Validate_error_iff (c : Config) :
    ((c.Validate ≠ none) ↔ (c.Feeds = [] ∨ c.NotionDBID = [] ∨ c.NotionAPIKey = [])) ∧
    ((c.Validate = none) ↔ (c.Feeds ≠ [] ∧ c.NotionDBID ≠ [] ∧ c.NotionAPIKey ≠ [])) := by
  rcases c with ⟨feeds, dbID, apiKey⟩
  cases feeds <;> cases dbID <;> cases apiKey <;> simp [Config.Validate]

/-- C2: concatenating the contents of the paragraph blocks built by the chunk loop, in
order, gives back the converted text exactly. -/
theorem chunkLoop_reconstructs (markdown : GoString) :
    ((chunkLoop markdown []).map fun b => b.Content).flatten = markdown :=
  chunkLoop_contents markdown

/-- C3: for a converted text of length L the chunk loop builds ceil(L/2000) blocks (the
least n with L ≤ 2000 * n), no block when L = 0, and blocks of lengths 2000, 2000 and 500
when L = 4500. -/
theorem chunkLoop_block_count (markdown : GoString) :
    (chunkLoop markdown []).length = (markdown.length + 1999) / 2000 ∧
    markdown.length ≤ 2000 * (chunkLoop markdown []).length ∧
    2000 * (chunkLoop markdown []).length < markdown.length + 2000 ∧
    (markdown.length = 0 → chunkLoop markdown [] = []) ∧
    (markdown.length = 4500 →
      (chunkLoop markdown []).map (fun b => b.Content.length) = [2000, 2000, 500]) := by
  have hlen := chunkLoop_length markdown
  refine ⟨hlen, by omega, by omega, ?_, ?_⟩
  · intro h0
    rw [List.length_eq_zero.mp h0, chunkLoop_nil]
  · intro h
    have h1 : 2000 < markdown.length := by omega
    have h2 : 2000 < (markdown.drop 2000).length := by rw [List.length_drop]; omega
    have h3 : 0 < ((markdown.drop 2000).drop 2000).length := by
      rw [List.length_drop, List.length_drop]; omega
    have h4 : ((markdown.drop 2000).drop 2000).length ≤ 2000 := by
      rw [List.length_drop, List.length_drop]; omega
    rw [chunkLoop_cons _ h1, chunkLoop_cons _ h2, chunkLoop_short _ [] h3 h4]
    have e1 : (markdown.take 2000).length = 2000 := by
      rw [List.length_take]; omega
    have e2 : ((markdown.drop 2000).take 2000).length = 2000 := by
      rw [List.length_take, List.length_drop]; omega
    have e3 : ((markdown.drop 2000).drop 2000).length = 500 := by
      rw [List.length_drop, List.length_drop]; omega
    show [(markdown.take 2000).length, ((markdown.drop 2000).take 2000).length,
      ((markdown.drop 2000).drop 2000).length] = [2000, 2000, 500]
    rw [e1, e2, e3]

/-- The block count at a text of 4500 zero bytes. -/
theorem chunkLoop_block_count_witness :
    (chunkLoop (List.replicate 4500 0) []).length = 3 ∧
    (chunkLoop (List.replicate 4500 0) []).map (fun b => b.Content.length) =
      [2000, 2000, 500] :=
  ⟨(chunkLoop_block_count (List.replicate 4500 0)).1.trans (by rw [List.length_replicate]),
    (chunkLoop_block_count (List.replicate 4500 0)).2.2.2.2 (List.length_replicate _ _)⟩

/-- C4: every block built by the chunk loop holds at least 1 and at most 2000 bytes, and
every block other than the last holds exactly 2000 bytes. -/
theorem chunkLoop_block_bounds (markdown : GoString) :
    (∀ b ∈ chunkLoop markdown [], 1 ≤ b.Content.length ∧ b.Content.length ≤ 2000) ∧
    (∀ b ∈ (chunkLoop markdown []).dropLast, b.Content.length = 2000) :=
  ⟨chunkLoop_each markdown, chunkLoop_dropLast markdown⟩

/-- The block bounds at a text of 2001 bytes, which yields a full block and a block of
one byte. -/
theorem chunkLoop_block_bounds_witness :
    chunkLoop (List.replicate 2001 5) [] =
      [paragraph (List.replicate 2000 5), paragraph [5]] ∧
    (1 ≤ (paragraph ([5] : GoString)).Content.length ∧
      (paragraph ([5] : GoString)).Content.length ≤ 2000) ∧
    (paragraph (List.replicate 2000 (5 : Byte))).Content.length = 2000 := by
  have hrun : chunkLoop (List.replicate 2001 5) [] =
      [paragraph (List.replicate 2000 5), paragraph [5]] := by
    have hlen : (List.replicate 2001 (5 : Byte)).length = 2001 := List.length_replicate _ _
    have htake : (List.replicate 2001 (5 : Byte)).take 2000 = List.replicate 2000 5 := by
      rw [List.take_replicate]
      rfl
    have hdrop : (List.replicate 2001 (5 : Byte)).drop 2000 = [5] := by
      rw [List.drop_replicate]
      rfl
    rw [chunkLoop_cons _ (by omega), htake, hdrop,
      chunkLoop_short _ [] (by decide) (by decide)]
    rfl
  refine ⟨hrun, ?_, ?_⟩
  · exact (chunkLoop_block_bounds (List.replicate 2001 5)).1 _
      (by rw [hrun]; exact List.mem_cons_of_mem _ (List.mem_singleton.mpr rfl))
  · exact (chunkLoop_block_bounds (List.replicate 2001 5)).2 _
      (by rw [hrun]; exact List.mem_singleton.mpr rfl)

/-- C10: the chunk loop cuts by bytes. The text `straddlingText` is valid UTF-8 and 2001
bytes long, its two-byte character lies across byte offset 2000, and the loop builds two
blocks, neither of which is valid UTF-8: the first ends with the lead byte 0xC3 and the
second is the lone continuation byte 0xA9. -/
theorem chunkLoop_splits_character :
    validUTF8 straddlingText = true ∧
    straddlingText.length = 2001 ∧
    chunkLoop straddlingText [] =
      [paragraph (List.replicate 1999 97 ++ [0xC3]), paragraph [0xA9]] ∧
    validUTF8 (paragraph (List.replicate 1999 97 ++ [0xC3])).Content = false ∧
    validUTF8 (paragraph ([0xA9] : GoString)).Content = false := by
  have hmap : ∀ (n : Nat) (rest : GoString),
      (List.replicate n (97 : Byte) ++ rest).map Fin.val =
        List.replicate n 97 ++ rest.map Fin.val := by
    intro n rest
    rw [List.map_append, List.map_replicate]
    rfl
  have hlen : straddlingText.length = 2001 := by
    unfold straddlingText
    rw [List.length_append, List.length_replicate]
    rfl
  refine ⟨?_, ?_, ?_, ?_, ?_⟩
  · unfold validUTF8 straddlingText
    rw [hmap, validUTF8Nat_ascii]
    decide
  · exact hlen
  · have htake : straddlingText.take 2000 = List.replicate 1999 97 ++ [0xC3] := by
      unfold straddlingText
      rw [List.take_append_eq_append_take, List.length_replicate, List.take_replicate]
      rfl
    have hdrop : straddlingText.drop 2000 = [0xA9] := by
      unfold straddlingText
      rw [List.drop_append_eq_append_drop, List.length_replicate, List.drop_replicate]
      rfl
    rw [chunkLoop_cons _ (by omega), htake, hdrop,
      chunkLoop_short _ [] (by decide) (by decide)]
    rfl
  · unfold validUTF8
    simp only [paragraph]
    rw [hmap, validUTF8Nat_ascii]
    decide
  · decide

/-! ## The item loop: helper lemmas -/

theorem processItems_cons {σ : Type} (env : Collaborators σ) (dbID : GoString) (item : Item)
    (rest : List Item) (w : σ) :
    processItems env dbID (item :: rest) w =
      ((processItem env dbID item w).1 ++
          (processItems env dbID rest (processItem env dbID item w).2).1,
        (processItems env dbID rest (processItem env dbID item w).2).2) := by
  rw [processItems]

theorem processItems_append {σ : Type} (env : Collaborators σ) (dbID : GoString)
    (pre post : List Item) (w : σ) :
    processItems env dbID (pre ++ post) w =
      ((processItems env dbID pre w).1 ++
          (processItems env dbID post (processItems env dbID pre w).2).1,
        (processItems env dbID post (processItems env dbID pre w).2).2) := by
  induction pre generalizing w with
  | nil => simp [processItems]
  | cons item rest ih =>
    rw [List.cons_append, processItems_cons, processItems_cons, ih]
    simp

theorem processFeed_fetched {σ : Type} (env : Collaborators σ) (feedURL dbID : GoString)
    (w0 w1 : σ) (items : List Item)
    (hfetch : env.ParseURLWithContext feedURL w0 = (Except.ok items, w1)) :
    (processFeed env feedURL dbID w0).1 =
      [Event.Printf (LogLine.Fetching feedURL), Event.ParseURLWithContext feedURL none] ++
        (processItems env dbID items w1).1 := by
  simp [processFeed, fetchFeed, hfetch]

theorem processFeed_fetch_failed {σ : Type} (env : Collaborators σ) (feedURL dbID : GoString)
    (w0 w1 : σ) (err : Error)
    (hfetch : env.ParseURLWithContext feedURL w0 = (Except.error err, w1)) :
    processFeed env feedURL dbID w0 =
      ([Event.Printf (LogLine.Fetching feedURL), Event.ParseURLWithContext feedURL (some err),
        Event.Printf (LogLine.ErrorFetching feedURL err)], w1) := by
  simp [processFeed, fetchFeed, hfetch]

theorem processItem_wait_error {σ : Type} (env : Collaborators σ) (dbID : GoString)
    (item : Item) (w w1 : σ) (err : Error) (hW : env.Wait w = (some err, w1)) :
    processItem env dbID item w =
      ([Event.Wait (some err), Event.Printf (LogLine.RateLimiterError err)], w1) := by
  simp [processItem, hW]

theorem processItem_check_error {σ : Type} (env : Collaborators σ) (dbID : GoString)
    (item : Item) (w w1 w2 : σ) (err : Error) (hW : env.Wait w = (none, w1))
    (hQ : env.Query dbID item.Link w1 = (Except.error err, w2)) :
    processItem env dbID item w =
      ([Event.Wait none, Event.Query dbID item.Link (some err),
        Event.Printf (LogLine.ErrorChecking err)], w2) := by
  simp [processItem, checkIfExists, hW, hQ]

theorem processItem_existing {σ : Type} (env : Collaborators σ) (dbID : GoString)
    (item : Item) (w w1 w2 : σ) (n : Nat) (hW : env.Wait w = (none, w1))
    (hQ : env.Query dbID item.Link w1 = (Except.ok n, w2)) (hn : 0 < n) :
    processItem env dbID item w =
      ([Event.Wait none, Event.Query dbID item.Link none,
        Event.Printf (LogLine.SkippingExisting item.Title)], w2) := by
  simp [processItem, checkIfExists, hW, hQ, hn]

theorem processItem_convert_error {σ : Type} (env : Collaborators σ) (dbID : GoString)
    (item : Item) (w w1 w2 : σ) (err : Error) (hW : env.Wait w = (none, w1))
    (hQ : env.Query dbID item.Link w1 = (Except.ok 0, w2))
    (hC : env.ConvertString item.Content = Except.error err) :
    processItem env dbID item w =
      ([Event.Wait none, Event.Query dbID item.Link none, Event.EnterAddToNotion item,
        Event.Printf (LogLine.ErrorAdding
          (Error.wrapf "error converting HTML to markdown" err))], w2) := by
  simp [processItem, checkIfExists, addToNotion, convertToMarkdown, hW, hQ, hC]

theorem processItem_create_error {σ : Type} (env : Collaborators σ) (dbID : GoString)
    (item : Item) (w w1 w2 w3 : σ) (markdown : GoString) (err : Error)
    (hW : env.Wait w = (none, w1))
    (hQ : env.Query dbID item.Link w1 = (Except.ok 0, w2))
    (hC : env.ConvertString item.Content = Except.ok markdown)
    (hP : env.Create (createRequest dbID item markdown) w2 = (some err, w3)) :
    processItem env dbID item w =
      ([Event.Wait none, Event.Query dbID item.Link none, Event.EnterAddToNotion item,
        Event.Create (createRequest dbID item markdown) (some err),
        Event.Printf (LogLine.ErrorAdding err)], w3) := by
  unfold createRequest at hP
  simp [processItem, checkIfExists, addToNotion, convertToMarkdown, createRequest, hW, hQ, hC, hP]

theorem processItem_created {σ : Type} (env : Collaborators σ) (dbID : GoString)
    (item : Item) (w w1 w2 w3 : σ) (markdown : GoString)
    (hW : env.Wait w = (none, w1))
    (hQ : env.Query dbID item.Link w1 = (Except.ok 0, w2))
    (hC : env.ConvertString item.Content = Except.ok markdown)
    (hP : env.Create (createRequest dbID item markdown) w2 = (none, w3)) :
    processItem env dbID item w =
      ([Event.Wait none, Event.Query dbID item.Link none, Event.EnterAddToNotion item,
        Event.Create (createRequest dbID item markdown) none,
        Event.Printf (LogLine.Added item.Title)], w3) := by
  unfold createRequest at hP
  simp [processItem, checkIfExists, addToNotion, convertToMarkdown, createRequest, hW, hQ, hC, hP]

/-- The six ways one iteration of the item loop can run. -/
theorem processItem_cases {σ : Type} (env : Collaborators σ) (dbID : GoString)
    (item : Item) (w : σ) :
    (∃ err, (env.Wait w).1 = some err ∧
      (processItem env dbID item w).1 =
        [Event.Wait (some err), Event.Printf (LogLine.RateLimiterError err)]) ∨
    (∃ err, (env.Wait w).1 = none ∧
      (env.Query dbID item.Link (env.Wait w).2).1 = Except.error err ∧
      (processItem env dbID item w).1 =
        [Event.Wait none, Event.Query dbID item.Link (some err),
          Event.Printf (LogLine.ErrorChecking err)]) ∨
    (∃ n, (env.Wait w).1 = none ∧
      (env.Query dbID item.Link (env.Wait w).2).1 = Except.ok n ∧ 0 < n ∧
      (processItem env dbID item w).1 =
        [Event.Wait none, Event.Query dbID item.Link none,
          Event.Printf (LogLine.SkippingExisting item.Title)]) ∨
    (∃ err, (env.Wait w).1 = none ∧
      (env.Query dbID item.Link (env.Wait w).2).1 = Except.ok 0 ∧
      env.ConvertString item.Content = Except.error err ∧
      (processItem env dbID item w).1 =
        [Event.Wait none, Event.Query dbID item.Link none, Event.EnterAddToNotion item,
          Event.Printf (LogLine.ErrorAdding
            (Error.wrapf "error converting HTML to markdown" err))]) ∨
    (∃ markdown err, (env.Wait w).1 = none ∧
      (env.Query dbID item.Link (env.Wait w).2).1 = Except.ok 0 ∧
      env.ConvertString item.Content = Except.ok markdown ∧
      (processItem env dbID item w).1 =
        [Event.Wait none, Event.Query dbID item.Link none, Event.EnterAddToNotion item,
          Event.Create (createRequest dbID item markdown) (some err),
          Event.Printf (LogLine.ErrorAdding err)]) ∨
    (∃ markdown, (env.Wait w).1 = none ∧
      (env.Query dbID item.Link (env.Wait w).2).1 = Except.ok 0 ∧
      env.ConvertString item.Content = Except.ok markdown ∧
      (processItem env dbID item w).1 =
        [Event.Wait none, Event.Query dbID item.Link none, Event.EnterAddToNotion item,
          Event.Create (createRequest dbID item markdown) none,
          Event.Printf (LogLine.Added item.Title)]) := by
  rcases hW : env.Wait w with ⟨_ | err, w1⟩
  · rcases hQ : env.Query dbID item.Link w1 with ⟨err | n, w2⟩
    · exact Or.inr (Or.inl ⟨err, rfl, rfl,
        by rw [processItem_check_error env dbID item w w1 w2 err hW hQ]⟩)
    · rcases Nat.eq_zero_or_pos n with hn | hn
      · subst hn
        rcases hC : env.ConvertString item.Content with err | markdown
        · exact Or.inr (Or.inr (Or.inr (Or.inl ⟨err, rfl, rfl, rfl,
            by rw [processItem_convert_error env dbID item w w1 w2 err hW hQ hC]⟩)))
        · rcases hP : env.Create (createRequest dbID item markdown) w2 with ⟨_ | err, w3⟩
          · exact Or.inr (Or.inr (Or.inr (Or.inr (Or.inr ⟨markdown, rfl, rfl, rfl,
              by rw [processItem_created env dbID item w w1 w2 w3 markdown hW hQ hC hP]⟩))))
          · exact Or.inr (Or.inr (Or.inr (Or.inr (Or.inl ⟨markdown, err, rfl, rfl, rfl,
              by rw [processItem_create_error env dbID item w w1 w2 w3 markdown err
                hW hQ hC hP]⟩))))
      · exact Or.inr (Or.inr (Or.inl ⟨n, rfl, rfl, hn,
          by rw [processItem_existing env dbID item w w1 w2 n hW hQ hn]⟩))
  · exact Or.inl ⟨err, rfl, by rw [processItem_wait_error env dbID item w w1 err hW]⟩

/-- The events of one iteration: a call to `Wait`, followed by events none of which is a
call to `Wait`. -/
theorem processItem_wait_first {σ : Type} (env : Collaborators σ) (dbID : GoString)
    (item : Item) (w : σ) :
    ∃ rest, (processItem env dbID item w).1 = Event.Wait (env.Wait w).1 :: rest ∧
      ∀ e ∈ rest, e.isWait = false := by
  rcases processItem_cases env dbID item w with
    ⟨err, hW, h⟩ | ⟨err, hW, _, h⟩ | ⟨n, hW, _, _, h⟩ | ⟨err, hW, _, _, h⟩ |
    ⟨markdown, err, hW, _, _, h⟩ | ⟨markdown, hW, _, _, h⟩ <;>
  · rw [h, hW]
    exact ⟨_, rfl, by simp [Event.isWait]⟩

theorem processItem_countP_isWait {σ : Type} (env : Collaborators σ) (dbID : GoString)
    (item : Item) (w : σ) :
    List.countP Event.isWait (processItem env dbID item w).1 = 1 := by
  obtain ⟨rest, hseg, hrest⟩ := processItem_wait_first env dbID item w
  rw [hseg, List.countP_cons, List.countP_eq_zero.mpr (by simpa using hrest)]
  rfl

theorem processItems_countP_isWait {σ : Type} (env : Collaborators σ) (dbID : GoString)
    (items : List Item) (w : σ) :
    List.countP Event.isWait (processItems env dbID items w).1 = items.length := by
  induction items generalizing w with
  | nil => simp [processItems]
  | cons item rest ih =>
    rw [processItems_cons, List.countP_append, processItem_countP_isWait, ih]
    simp
    omega

theorem checkIfExists_false_iff {σ : Type} (env : Collaborators σ) (dbID url : GoString)
    (w : σ) :
    (checkIfExists env dbID url w).1 = Except.ok false ↔
      (env.Query dbID url w).1 = Except.ok 0 := by
  unfold checkIfExists
  rcases env.Query dbID url w with ⟨err | n, w2⟩
  · simp
  · simp

theorem convertToMarkdown_error_iff {σ : Type} (env : Collaborators σ) (html : GoString)
    (err : Error) :
    convertToMarkdown env html = Except.error err ↔
      ∃ cause, env.ConvertString html = Except.error cause ∧
        err = Error.wrapf "error converting HTML to markdown" cause := by
  unfold convertToMarkdown
  rcases env.ConvertString html with cause | markdown
  · simp [eq_comm]
  · simp

/-- Within one iteration, `addToNotion` is entered, and then for the item of the iteration
only, exactly when the token was granted and the existence check answered false. -/
theorem processItem_enter_iff {σ : Type} (env : Collaborators σ) (dbID : GoString)
    (item : Item) (w : σ) (it : Item) :
    Event.EnterAddToNotion it ∈ (processItem env dbID item w).1 ↔
      (it = item ∧ (env.Wait w).1 = none ∧
        (checkIfExists env dbID item.Link (env.Wait w).2).1 = Except.ok false) := by
  rw [checkIfExists_false_iff]
  rcases processItem_cases env dbID item w with
    ⟨err, hW, h⟩ | ⟨err, hW, hQ, h⟩ | ⟨n, hW, hQ, hn, h⟩ | ⟨err, hW, hQ, _, h⟩ |
    ⟨markdown, err, hW, hQ, _, h⟩ | ⟨markdown, hW, hQ, _, h⟩
  · simp [h, hW]
  · simp [h, hW, hQ]
  · have hne : n ≠ 0 := by omega
    simp [h, hW, hQ, hne]
  · simp [h, hW, hQ]
  · simp [h, hW, hQ]
  · simp [h, hW, hQ]

theorem processItem_addedItems_existing {σ : Type} (env : Collaborators σ) (dbID : GoString)
    (item : Item) (w : σ) (n : Nat) (hW : (env.Wait w).1 = none)
    (hQ : (env.Query dbID item.Link (env.Wait w).2).1 = Except.ok n) (hn : 0 < n) :
    (processItem env dbID item w).1 =
      [Event.Wait none, Event.Query dbID item.Link none,
        Event.Printf (LogLine.SkippingExisting item.Title)] := by
  rw [processItem_existing env dbID item w (env.Wait w).2
    (env.Query dbID item.Link (env.Wait w).2).2 n (Prod.ext hW rfl) (Prod.ext hQ rfl) hn]

theorem processItem_addedItems_fresh {σ : Type} (env : Collaborators σ) (dbID : GoString)
    (item : Item) (w : σ) (hW : (env.Wait w).1 = none)
    (hQ : (env.Query dbID item.Link (env.Wait w).2).1 = Except.ok 0) :
    addedItems (processItem env dbID item w).1 = [item] := by
  rcases processItem_cases env dbID item w with
    ⟨err, hW1, h⟩ | ⟨err, _, hQ1, h⟩ | ⟨n, _, hQ1, hn, h⟩ | ⟨err, _, _, _, h⟩ |
    ⟨markdown, err, _, _, _, h⟩ | ⟨markdown, _, _, _, h⟩
  · rw [hW] at hW1
    cases hW1
  · rw [hQ] at hQ1
    cases hQ1
  · rw [hQ] at hQ1
    cases hQ1
    omega
  · rw [h]
    rfl
  · rw [h]
    rfl
  · rw [h]
    rfl

theorem addedItems_append (xs ys : List Event) :
    addedItems (xs ++ ys) = addedItems xs ++ addedItems ys := by
  simp [addedItems]

/-- C5: in a run of `processFeed` whose fetch returned the items `pre ++ item :: post`, the
events are the two fetch events, the events of the iterations for `pre`, those of the
iteration for `item`, and those of the iterations for `post`; the iteration for `item`
enters `addToNotion`, and then for `item` only, exactly when its rate-token acquisition
succeeded and its existence check succeeded and returned false. Hence for a feed of two
items, `a` whose link the store always reports as existing and `b` whose link it always
reports as absent, with every token granted, `addToNotion` is entered exactly once, for
`b`, and the skip of `a` is logged. -/
theorem processFeed_add_iff {σ : Type} (env : Collaborators σ) (feedURL dbID : GoString)
    (w0 w1 : σ) :
    (∀ (pre post : List Item) (item : Item),
      env.ParseURLWithContext feedURL w0 = (Except.ok (pre ++ item :: post), w1) →
      (processFeed env feedURL dbID w0).1 =
          [Event.Printf (LogLine.Fetching feedURL), Event.ParseURLWithContext feedURL none] ++
            (processItems env dbID pre w1).1 ++
            (processItem env dbID item (processItems env dbID pre w1).2).1 ++
            (processItems env dbID post
              (processItem env dbID item (processItems env dbID pre w1).2).2).1 ∧
        ∀ it : Item,
          Event.EnterAddToNotion it ∈
              (processItem env dbID item (processItems env dbID pre w1).2).1 ↔
            (it = item ∧ (env.Wait (processItems env dbID pre w1).2).1 = none ∧
              (checkIfExists env dbID item.Link
                (env.Wait (processItems env dbID pre w1).2).2).1 = Except.ok false)) ∧
    (∀ a b : Item,
      (∀ w, (env.Wait w).1 = none) →
      (∀ w, ∃ n, 0 < n ∧ (env.Query dbID a.Link w).1 = Except.ok n) →
      (∀ w, (env.Query dbID b.Link w).1 = Except.ok 0) →
      (env.ParseURLWithContext feedURL w0 = (Except.ok [a, b], w1) ∨
        env.ParseURLWithContext feedURL w0 = (Except.ok [b, a], w1)) →
      addedItems (processFeed env feedURL dbID w0).1 = [b] ∧
        Event.Printf (LogLine.SkippingExisting a.Title) ∈
          (processFeed env feedURL dbID w0).1) := by
  constructor
  · intro pre post item hfetch
    constructor
    · rw [processFeed_fetched env feedURL dbID w0 w1 _ hfetch, processItems_append,
        processItems_cons]
      simp
    · intro it
      exact processItem_enter_iff env dbID item _ it
  · intro a b hWait hA hB hfetch
    have hskip : ∀ w, (processItem env dbID a w).1 =
        [Event.Wait none, Event.Query dbID a.Link none,
          Event.Printf (LogLine.SkippingExisting a.Title)] := by
      intro w
      obtain ⟨n, hn, hQ⟩ := hA (env.Wait w).2
      exact processItem_addedItems_existing env dbID a w n (hWait w) hQ hn
    have hadd : ∀ w, addedItems (processItem env dbID b w).1 = [b] := fun w =>
      processItem_addedItems_fresh env dbID b w (hWait w) (hB _)
    rcases hfetch with hfetch | hfetch
    · rw [processFeed_fetched env feedURL dbID w0 w1 _ hfetch, processItems_cons,
        processItems_cons, hskip]
      constructor
      · rw [addedItems_append, addedItems_append, addedItems_append, hadd]
        simp [addedItems, processItems]
      · simp
    · rw [processFeed_fetched env feedURL dbID w0 w1 _ hfetch, processItems_cons,
        processItems_cons, hskip]
      constructor
      · rw [addedItems_append, addedItems_append, addedItems_append, hadd]
        simp [addedItems, processItems]
      · simp

/-- The feed of `storedItem` then `freshItem`, against a store that holds the link of
`storedItem`: `addToNotion` is entered for `freshItem` only. -/
theorem processFeed_add_iff_witness :
    (Event.EnterAddToNotion freshItem ∈
        (processItem (scriptedEnv [storedItem, freshItem] [storedItem.Link] Except.ok) []
          freshItem
          (processItems (scriptedEnv [storedItem, freshItem] [storedItem.Link] Except.ok) []
            [storedItem] 1).2).1) ∧
    addedItems
        (processFeed (scriptedEnv [storedItem, freshItem] [storedItem.Link] Except.ok)
          [] [] 0).1 = [freshItem] ∧
    Event.Printf (LogLine.SkippingExisting storedItem.Title) ∈
        (processFeed (scriptedEnv [storedItem, freshItem] [storedItem.Link] Except.ok)
          [] [] 0).1 := by
  have h := processFeed_add_iff
    (scriptedEnv [storedItem, freshItem] [storedItem.Link] Except.ok) [] [] 0 1
  refine ⟨((h.1 [storedItem] [] freshItem rfl).2 freshItem).mpr ⟨rfl, rfl, ?_⟩, ?_⟩
  · rfl
  · exact h.2 storedItem freshItem (fun _ => rfl) (fun _ => ⟨1, Nat.one_pos, rfl⟩)
      (fun _ => rfl) (Or.inl rfl)

/-! ## The feed worker: claims -/

/-- C6: on a feed of one new item, with collaborators that all succeed, the worker acquires
one rate token and makes two calls to the destination store: the `Page.Create` request
follows the `Database.Query` call with no acquisition of its own. -/
theorem processFeed_create_not_gated :
    (processFeed (scriptedEnv [freshItem] [] Except.ok) [] [] 0).1 =
      [Event.Printf (LogLine.Fetching []),
        Event.ParseURLWithContext [] none,
        Event.Wait none,
        Event.Query [] freshItem.Link none,
        Event.EnterAddToNotion freshItem,
        Event.Create (createRequest [] freshItem freshItem.Content) none,
        Event.Printf (LogLine.Added freshItem.Title)] ∧
    List.countP Event.isTokenAcquired
      (processFeed (scriptedEnv [freshItem] [] Except.ok) [] [] 0).1 = 1 ∧
    List.countP Event.isStoreCall
      (processFeed (scriptedEnv [freshItem] [] Except.ok) [] [] 0).1 = 2 := by
  have hrun : (processFeed (scriptedEnv [freshItem] [] Except.ok) [] [] 0).1 =
      [Event.Printf (LogLine.Fetching []),
        Event.ParseURLWithContext [] none,
        Event.Wait none,
        Event.Query [] freshItem.Link none,
        Event.EnterAddToNotion freshItem,
        Event.Create (createRequest [] freshItem freshItem.Content) none,
        Event.Printf (LogLine.Added freshItem.Title)] := by
    rw [processFeed_fetched _ [] [] 0 1 [freshItem] rfl, processItems_cons,
      processItem_created _ [] freshItem 1 2 3 4 freshItem.Content rfl rfl rfl rfl]
    rfl
  refine ⟨hrun, ?_, ?_⟩
  · rw [hrun]
    rfl
  · rw [hrun]
    rfl

/-- C8: when the fetch succeeds with `items`, the run calls `limiter.Wait` once per item:
for every split `items = pre ++ item :: post` the events are the two fetch events, the
events of the iterations for `pre` (with one `Wait` call per item of `pre`), the events of
the iteration for `item` (a `Wait` call first and no other `Wait` call), and the events of
the iterations for `post` (with one `Wait` call per item of `post`), whatever the results
of the collaborators. When the fetch fails the run is the two fetch events and a log line:
no `Wait` call and no destination-store call. -/
theorem processFeed_item_isolation {σ : Type} (env : Collaborators σ)
    (feedURL dbID : GoString) (w0 w1 : σ) :
    (∀ items : List Item,
      env.ParseURLWithContext feedURL w0 = (Except.ok items, w1) →
      List.countP Event.isWait (processFeed env feedURL dbID w0).1 = items.length ∧
      ∀ (pre post : List Item) (item : Item), items = pre ++ item :: post →
        ∃ rest : List Event,
          (processItem env dbID item (processItems env dbID pre w1).2).1 =
            Event.Wait (env.Wait (processItems env dbID pre w1).2).1 :: rest ∧
          (∀ e ∈ rest, e.isWait = false) ∧
          (processFeed env feedURL dbID w0).1 =
            [Event.Printf (LogLine.Fetching feedURL),
              Event.ParseURLWithContext feedURL none] ++
              (processItems env dbID pre w1).1 ++
              (Event.Wait (env.Wait (processItems env dbID pre w1).2).1 :: rest) ++
              (processItems env dbID post
                (processItem env dbID item (processItems env dbID pre w1).2).2).1 ∧
          List.countP Event.isWait (processItems env dbID pre w1).1 = pre.length ∧
          List.countP Event.isWait
            (processItems env dbID post
              (processItem env dbID item (processItems env dbID pre w1).2).2).1 =
            post.length) ∧
    (∀ err : Error,
      env.ParseURLWithContext feedURL w0 = (Except.error err, w1) →
      (processFeed env feedURL dbID w0).1 =
        [Event.Printf (LogLine.Fetching feedURL),
          Event.ParseURLWithContext feedURL (some err),
          Event.Printf (LogLine.ErrorFetching feedURL err)] ∧
      ∀ e ∈ (processFeed env feedURL dbID w0).1,
        e.isWait = false ∧ e.isStoreCall = false) := by
  constructor
  · intro items hfetch
    constructor
    · rw [processFeed_fetched env feedURL dbID w0 w1 _ hfetch, List.countP_append,
        processItems_countP_isWait]
      simp [List.countP_cons, Event.isWait]
    · intro pre post item hsplit
      subst hsplit
      obtain ⟨rest, hseg, hrest⟩ :=
        processItem_wait_first env dbID item (processItems env dbID pre w1).2
      refine ⟨rest, hseg, hrest, ?_, processItems_countP_isWait _ _ _ _,
        processItems_countP_isWait _ _ _ _⟩
      rw [processFeed_fetched env feedURL dbID w0 w1 _ hfetch, processItems_append,
        processItems_cons, ← hseg]
      simp
  · intro err hfetch
    rw [processFeed_fetch_failed env feedURL dbID w0 w1 err hfetch]
    refine ⟨rfl, ?_⟩
    intro e he
    simp at he
    rcases he with he | he | he <;> subst he <;> exact ⟨rfl, rfl⟩

/-- Two items whose conversion fails still get one `Wait` call each, and a feed that
cannot be fetched gets none. -/
theorem processFeed_item_isolation_witness :
    List.countP Event.isWait
        (processFeed (scriptedEnv [storedItem, freshItem] [storedItem.Link]
          (fun _ => Except.error (Error.remote 1))) [] [] 0).1 = 2 ∧
    (∀ e ∈ (processFeed unreachableFeedEnv [] [] 0).1,
      e.isWait = false ∧ e.isStoreCall = false) :=
  ⟨((processFeed_item_isolation (scriptedEnv [storedItem, freshItem] [storedItem.Link]
      (fun _ => Except.error (Error.remote 1))) [] [] 0 1).1 [storedItem, freshItem] rfl).1,
    ((processFeed_item_isolation unreachableFeedEnv [] [] 0 1).2 (Error.remote 2) rfl).2⟩

/-- C9: when the conversion of the item content fails with `err`, `addToNotion` returns
`err`, sends no create request and leaves the world unchanged, and the iteration of the
item loop for that item sends no create request and does not log the item as added.
Conversely every create request sent by `addToNotion` follows a successful conversion:
its blocks are those of the converted text. -/
theorem addToNotion_conversion_error {σ : Type} (env : Collaborators σ) (dbID : GoString)
    (item : Item) (w : σ) :
    (∀ err : Error, convertToMarkdown env item.Content = Except.error err →
      addToNotion env dbID item w = (some err, [Event.EnterAddToNotion item], w) ∧
      (∀ (req : PageCreateRequest) (r : Option Error),
        Event.Create req r ∉ (addToNotion env dbID item w).2.1) ∧
      ∀ (w0 : σ), ∀ e ∈ (processItem env dbID item w0).1,
        (∀ (req : PageCreateRequest) (r : Option Error), e ≠ Event.Create req r) ∧
        e ≠ Event.Printf (LogLine.Added item.Title)) ∧
    (∀ (req : PageCreateRequest) (r : Option Error),
      Event.Create req r ∈ (addToNotion env dbID item w).2.1 →
      ∃ markdown, convertToMarkdown env item.Content = Except.ok markdown ∧
        req = createRequest dbID item markdown) := by
  constructor
  · intro err hconv
    have hadd : addToNotion env dbID item w = (some err, [Event.EnterAddToNotion item], w) := by
      simp [addToNotion, hconv]
    refine ⟨hadd, ?_, ?_⟩
    · intro req r
      rw [hadd]
      simp
    · intro w0 e he
      obtain ⟨cause, hcause, _⟩ := (convertToMarkdown_error_iff env _ err).mp hconv
      rcases processItem_cases env dbID item w0 with
        ⟨err1, _, h⟩ | ⟨err1, _, _, h⟩ | ⟨n, _, _, _, h⟩ | ⟨err1, _, _, _, h⟩ |
        ⟨markdown, err1, _, _, hC, h⟩ | ⟨markdown, _, _, hC, h⟩
      · rw [h] at he
        simp at he
        rcases he with he | he <;> subst he <;> simp
      · rw [h] at he
        simp at he
        rcases he with he | he | he <;> subst he <;> simp
      · rw [h] at he
        simp at he
        rcases he with he | he | he <;> subst he <;> simp
      · rw [h] at he
        simp at he
        rcases he with he | he | he | he <;> subst he <;> simp
      · rw [hcause] at hC
        cases hC
      · rw [hcause] at hC
        cases hC
  · intro req r hmem
    unfold addToNotion at hmem
    rcases hconv : convertToMarkdown env item.Content with err | markdown
    · rw [hconv] at hmem
      simp at hmem
    · rw [hconv] at hmem
      simp at hmem
      exact ⟨markdown, rfl, hmem.1⟩

/-- A converter that fails on `freshItem`, and one that succeeds on it. -/
theorem addToNotion_conversion_error_witness :
    addToNotion (scriptedEnv [freshItem] [] (fun _ => Except.error (Error.remote 1))) []
        freshItem 5 =
      (some (Error.wrapf "error converting HTML to markdown" (Error.remote 1)),
        [Event.EnterAddToNotion freshItem], 5) ∧
    (∃ markdown,
      convertToMarkdown (scriptedEnv [freshItem] [] Except.ok) freshItem.Content =
          Except.ok markdown ∧
        createRequest [] freshItem freshItem.Content = createRequest [] freshItem markdown) :=
  ⟨((addToNotion_conversion_error
      (scriptedEnv [freshItem] [] (fun _ => Except.error (Error.remote 1))) [] freshItem 5).1
      (Error.wrapf "error converting HTML to markdown" (Error.remote 1)) rfl).1,
    (addToNotion_conversion_error (scriptedEnv [freshItem] [] Except.ok) [] freshItem 5).2
      (createRequest [] freshItem freshItem.Content) none
      (List.mem_cons_of_mem _ (List.mem_singleton.mpr rfl))⟩

/-! ## The rate limiter: helper lemmas -/

/-- With a bucket of one token, a caller is let through at the time of its call or when
the token is ready, whichever is later, and the next token is ready one interval after. -/
theorem Limiter.Wait_burst_one (lim : Limiter) (now : Int) (hburst : lim.burst = 1) :
    (lim.Wait now).1 = max now (lim.last + lim.every - lim.credit) ∧
    (lim.Wait now).2.burst = 1 ∧
    (lim.Wait now).2.every = lim.every ∧
    (lim.Wait now).2.last + (lim.Wait now).2.every - (lim.Wait now).2.credit =
      (lim.Wait now).1 + lim.every := by
  simp only [Limiter.Wait, hburst, one_mul]
  refine ⟨?_, trivial, trivial, ?_⟩
  · split <;> omega
  · split <;> omega

/-- Every grant comes once the token is ready, and later grants come at least one interval
after earlier ones. -/
theorem grantTimes_spaced (lim : Limiter) (calls : List Int) (hburst : lim.burst = 1)
    (hevery : (0 : Int) ≤ lim.every) :
    (∀ g ∈ grantTimes lim calls, lim.last + lim.every - lim.credit ≤ g) ∧
    List.Pairwise (fun g g' => g + lim.every ≤ g') (grantTimes lim calls) := by
  induction calls generalizing lim with
  | nil => simp [grantTimes]
  | cons now rest ih =>
    obtain ⟨hg, hb, he, hready⟩ := Limiter.Wait_burst_one lim now hburst
    obtain ⟨hlow, hpair⟩ := ih (lim.Wait now).2 hb (by rw [he]; exact hevery)
    rw [hready] at hlow
    rw [he] at hpair
    have hfirst : lim.last + lim.every - lim.credit ≤ (lim.Wait now).1 := by
      rw [hg]; exact le_max_right _ _
    constructor
    · intro g hmem
      rw [grantTimes, List.mem_cons] at hmem
      rcases hmem with hmem | hmem
      · rw [hmem]; exact hfirst
      · have := hlow g hmem
        omega
    · rw [grantTimes, List.pairwise_cons]
      exact ⟨hlow, hpair⟩

/-- Every caller is let through at or after the time of its call. -/
theorem grantTimes_after_call (lim : Limiter) (calls : List Int) (hburst : lim.burst = 1) :
    List.Forall₂ (fun now g => now ≤ g) calls (grantTimes lim calls) := by
  induction calls generalizing lim with
  | nil => exact List.Forall₂.nil
  | cons now rest ih =>
    obtain ⟨hg, hb, _, _⟩ := Limiter.Wait_burst_one lim now hburst
    rw [grantTimes]
    exact List.Forall₂.cons (by rw [hg]; exact le_max_left _ _) (ih _ hb)

/-- Times that are at least `d` apart and lie in a window of duration `k * d` are at most
`k` in number. -/
theorem length_le_of_spaced (d : Int) (l : List Int) (k : Nat) (t : Int)
    (hpair : List.Pairwise (fun g g' => g + d ≤ g') l)
    (hwin : ∀ g ∈ l, t ≤ g ∧ g < t + k * d) : l.length ≤ k := by
  induction l generalizing k t with
  | nil => exact Nat.zero_le _
  | cons a rest ih =>
    rw [List.pairwise_cons] at hpair
    obtain ⟨ha1, ha2⟩ := hwin a (List.mem_cons_self _ _)
    cases k with
    | zero =>
      simp at ha2
      omega
    | succ m =>
      have hrest : rest.length ≤ m := by
        apply ih m (t + d) hpair.2
        intro g hmem
        have h1 := hpair.1 g hmem
        have h2 := (hwin g (List.mem_cons_of_mem _ hmem)).2
        push_cast at h2
        constructor
        · omega
        · linarith
      rw [List.length_cons]
      omega

theorem grantsIn_le_of_spaced (d : Int) (grants : List Int) (k : Nat)
    (t : Int) (w : Duration) (hw : w ≤ k * d)
    (hpair : List.Pairwise (fun g g' => g + d ≤ g') grants) :
    grantsIn grants t w ≤ k := by
  unfold grantsIn
  rw [List.countP_eq_length_filter]
  apply length_le_of_spaced d _ k t (hpair.filter _)
  intro g hmem
  have hg := (List.mem_filter.mp hmem).2
  simp only [decide_eq_true_eq] at hg
  exact ⟨hg.1, by linarith [hg.2]⟩

/-! ## The rate limiter: claim -/

/-- C7, the claim as stated, refuted: four calls of `Wait` made within 300 ns of the
creation of the limiter of `runSync` are let through at 0, 333333333, 666666666 and
999999999 ns, so four acquires are granted in the window of one second that starts at 0,
and the fourth is granted before the next second starts. -/
theorem runSyncLimiter_four_in_one_second :
    grantTimes (runSyncLimiter 0) [0, 100, 200, 300] =
      [0, 333333333, 666666666, 999999999] ∧
    grantsIn (grantTimes (runSyncLimiter 0) [0, 100, 200, 300]) 0 Second = 4 ∧
    (999999999 : Int) < 0 + Second ∧
    ¬ (∀ (t0 : Int) (calls : List Int) (t : Int),
        grantsIn (grantTimes (runSyncLimiter t0) calls) t Second ≤ 3) := by
  have hrun : grantTimes (runSyncLimiter 0) [0, 100, 200, 300] =
      [0, 333333333, 666666666, 999999999] := by decide
  have hcount : grantsIn (grantTimes (runSyncLimiter 0) [0, 100, 200, 300]) 0 Second = 4 := by
    rw [hrun]
    decide
  refine ⟨hrun, hcount, by decide, ?_⟩
  intro hall
  have h := hall 0 [0, 100, 200, 300] 0
  rw [hcount] at h
  omega

/-- C7, amended: with the limiter of `runSync` (one token every `time.Second/3` =
333333333 ns, burst 1), whatever the times of the calls of `Wait`, every caller is let
through at or after its call, successive grants are at least 333333333 ns apart, at most 3
acquires are granted in any window of 3 * (time.Second/3) = 999999999 ns, at most 4 in any
window of one second, and a fourth acquire is granted at least 999999999 ns after the
first of the three before it. -/
theorem runSyncLimiter_grants (t0 : Int) (calls : List Int) :
    List.Forall₂ (fun now g => now ≤ g) calls (grantTimes (runSyncLimiter t0) calls) ∧
    List.Pairwise (fun g g' => g + 333333333 ≤ g') (grantTimes (runSyncLimiter t0) calls) ∧
    (∀ t : Int, grantsIn (grantTimes (runSyncLimiter t0) calls) t (3 * (Second / 3)) ≤ 3) ∧
    (∀ t : Int, grantsIn (grantTimes (runSyncLimiter t0) calls) t Second ≤ 4) ∧
    (∀ (before : List Int) (g1 g2 g3 g4 : Int) (after : List Int),
      grantTimes (runSyncLimiter t0) calls = before ++ g1 :: g2 :: g3 :: g4 :: after →
      g1 + 999999999 ≤ g4) := by
  have hevery : (runSyncLimiter t0).every = (333333333 : Int) := rfl
  have hburst : (runSyncLimiter t0).burst = 1 := rfl
  have hpair : List.Pairwise (fun g g' => g + 333333333 ≤ g')
      (grantTimes (runSyncLimiter t0) calls) := by
    have h := (grantTimes_spaced (runSyncLimiter t0) calls hburst (by rw [hevery]; decide)).2
    rw [hevery] at h
    exact h
  refine ⟨grantTimes_after_call _ calls hburst, hpair, ?_, ?_, ?_⟩
  · intro t
    exact grantsIn_le_of_spaced 333333333 _ 3 t _ (by decide) hpair
  · intro t
    exact grantsIn_le_of_spaced 333333333 _ 4 t _ (by decide) hpair
  · intro before g1 g2 g3 g4 after hsplit
    rw [hsplit] at hpair
    have h := (List.pairwise_append.mp hpair).2.1
    simp only [List.pairwise_cons, List.mem_cons] at h
    have h12 := h.1 g2 (Or.inl rfl)
    have h23 := h.2.1 g3 (Or.inl rfl)
    have h34 := h.2.2.1 g4 (Or.inl rfl)
    omega

/-- Four calls made at 0, 100, 200 and 300 ns: the fourth is let through 999999999 ns
after the first. -/
theorem runSyncLimiter_grants_witness :
    grantTimes (runSyncLimiter 0) [0, 100, 200, 300] =
      [] ++ 0 :: 333333333 :: 666666666 :: 999999999 :: [] ∧
    (0 : Int) + 999999999 ≤ 999999999 :=
  ⟨by decide,
    (runSyncLimiter_grants 0 [0, 100, 200, 300]).2.2.2.2 [] 0 333333333 666666666 999999999 []
      (by decide)⟩

end RssToNotion
